import Mathlib

/-!
Verification development for a real-time statistical-arbitrage analytics
backend.  The Python source (FastAPI app) is shallowly embedded: each
relevant class becomes a structure, each method a pure function from the
old state (plus explicit clock inputs) to the new state.  Python dicts
keyed by symbol are modelled as functions `String → _`; Python sets and
deques as lists; `datetime` instants as integer epoch values (milliseconds
for the resampler and finalizer, rational seconds for the alert manager).
Floating-point arithmetic is modelled exactly over ℚ, except the z-score
computation (analytics.py) which needs a square root and is modelled
over ℝ.
-/

/-! ## Shared helpers -/

/-- Pointwise update of a `String`-keyed map (Python `d[k] = v`). -/
def updFn {β : Type} (f : String → β) (k : String) (v : β) : String → β :=
  fun k' => if k' = k then v else f k'

/-- Python slice `xs[-n:]`: the last `n` elements, except that `n = 0`
gives the whole list (`xs[-0:]` is `xs[0:]`). -/
def pySliceLast {α : Type} (xs : List α) (n : ℕ) : List α :=
  if n = 0 then xs else xs.drop (xs.length - n)

/-- Appending to a `collections.deque` with `maxlen = cap`: append on the
right, evict on the left when the bound is exceeded. -/
def dequeAppend {α : Type} (cap : ℕ) (xs : List α) (a : α) : List α :=
  if cap < (xs ++ [a]).length then (xs ++ [a]).drop ((xs ++ [a]).length - cap) else xs ++ [a]

/-! ## Alert manager (src/BackEnd/app/alerts.py)

`Alert` keeps the fields the claims mention.  The source also carries a
random `id` (uuid4) and a formatted display `timestamp`; both are
external nondeterminism / string formatting with no bearing on any
claim, so they are left out of the embedding.  Likewise the
human-readable `message` strings are built by Python f-strings with
numeric formatting; they are modelled by fixed placeholder constants,
one per call site (no claim inspects a message). -/

structure Alert where
  type : String
  title : String
  message : String
  symbol : Option String
  value : Option ℚ
  metric : Option String
  threshold : Option ℚ
  direction : Option String
deriving DecidableEq, Repr

/-- State of `AlertManager`: the bounded ring of alerts (deque with
`maxlen = max_alerts`) and the cooldown registry `last_alert_time`.
Times are rational seconds since the epoch (`datetime.utcnow()`). -/
structure AlertManagerState where
  max_alerts : ℕ
  cooldown_seconds : ℚ
  alerts : List Alert
  last_alert_time : String → Option ℚ

/-- `AlertManager.__init__` with the settings defaults
(`MAX_ALERTS = 100`, `ALERT_COOLDOWN_SECONDS = 60`). -/
def initAlertManager : AlertManagerState :=
  { max_alerts := 100
    cooldown_seconds := 60
    alerts := []
    last_alert_time := fun _ => none }

/-- Arguments of `AlertManager.create_alert` (defaults `None`). -/
structure AlertArgs where
  alert_type : String
  title : String
  message : String
  symbol : Option String := none
  value : Option ℚ := none
  metric : Option String := none
  threshold : Option ℚ := none
  direction : Option String := none

/-- Python rendering of an optional string inside an f-string:
`None` prints as `"None"`. -/
def pyShowOptStr : Option String → String
  | none => "None"
  | some s => s

/-- Cooldown key `f"{alert_type}:{title}:{symbol}"`. -/
def alert_key (args : AlertArgs) : String :=
  args.alert_type ++ ":" ++ args.title ++ ":" ++ pyShowOptStr args.symbol

/-- `AlertManager._should_fire_alert`: true when the key never fired or
at least `cooldown_seconds` have passed since it last fired. -/
def should_fire_alert (st : AlertManagerState) (now : ℚ) (key : String) : Bool :=
  match st.last_alert_time key with
  | none => true
  | some t => decide (st.cooldown_seconds ≤ now - t)

/-- `AlertManager.create_alert` at instant `now`: suppressed by cooldown
it returns `none` and leaves the state untouched; otherwise it appends
the new alert to the ring and refreshes `last_alert_time[key]`. -/
def create_alert (st : AlertManagerState) (now : ℚ) (args : AlertArgs) :
    Option Alert × AlertManagerState :=
  let key := alert_key args
  if should_fire_alert st now key then
    let a : Alert :=
      { type := args.alert_type, title := args.title, message := args.message
        symbol := args.symbol, value := args.value, metric := args.metric
        threshold := args.threshold, direction := args.direction }
    (some a,
      { st with
          alerts := dequeAppend st.max_alerts st.alerts a
          last_alert_time := updFn st.last_alert_time key (some now) })
  else (none, st)

/-- Placeholder for the breach message f-string. -/
def zscore_breach_message : String := "Z-Score breach message"

/-- Placeholder for the approach-warning message f-string. -/
def zscore_approach_message : String := "Z-Score approaching message"

/-- Placeholder for the low-correlation message f-string. -/
def low_correlation_message : String := "Low correlation message"

/-- Placeholder for the high-volatility message f-string. -/
def high_volatility_message : String := "High volatility message"

/-- `AlertManager.evaluate_zscore_alert` (the float literal `0.8` is the
exact rational 4/5 in this model). -/
def evaluate_zscore_alert (st : AlertManagerState) (now : ℚ)
    (zscore : ℚ) (threshold : ℚ) : AlertManagerState :=
  if threshold < |zscore| then
    (create_alert st now
      { alert_type := "ALERT", title := "Z-Score Threshold Breach"
        message := zscore_breach_message
        value := some zscore, metric := some "z_score"
        threshold := some threshold
        direction := some (if 0 < zscore then "above" else "below") }).2
  else if threshold * (4/5) < |zscore| then
    (create_alert st now
      { alert_type := "warning", title := "Z-Score Approaching Threshold"
        message := zscore_approach_message
        value := some zscore, metric := some "z_score"
        threshold := some (threshold * (4/5))
        direction := some (if 0 < zscore then "above" else "below") }).2
  else st

/-- `AlertManager.evaluate_correlation_alert`. -/
def evaluate_correlation_alert (st : AlertManagerState) (now : ℚ)
    (correlation : ℚ) (min_threshold : ℚ) : AlertManagerState :=
  if |correlation| < min_threshold then
    (create_alert st now
      { alert_type := "warning", title := "Low Correlation Detected"
        message := low_correlation_message
        value := some correlation, metric := some "correlation"
        threshold := some min_threshold, direction := some "below" }).2
  else st

/-- `AlertManager.evaluate_volatility_alert`. -/
def evaluate_volatility_alert (st : AlertManagerState) (now : ℚ)
    (volatility : ℚ) (max_threshold : ℚ) : AlertManagerState :=
  if max_threshold < volatility then
    (create_alert st now
      { alert_type := "warning", title := "High Volatility Alert"
        message := high_volatility_message
        value := some volatility, metric := some "volatility"
        threshold := some max_threshold, direction := some "above" }).2
  else st

/-- The fields of `SummaryStats` that `evaluate_summary_alerts` reads. -/
structure SummaryStats where
  spread : ℚ
  zScore : ℚ
  correlation : ℚ
  rollingVolatility : ℚ

/-- `AlertManager.evaluate_summary_alerts`: the z-score rule is guarded
by `abs(summary.zScore) > zscore_threshold` before it delegates to
`evaluate_zscore_alert` (which receives a `SpreadDataPoint` whose
`zScore` field is `summary.zScore`); then the correlation rule with
`min_threshold = 0.5` and the volatility rule with
`max_threshold = 500.0`. -/
def evaluate_summary_alerts (st : AlertManagerState) (now : ℚ)
    (summary : SummaryStats) (zscore_threshold : ℚ) : AlertManagerState :=
  let st1 :=
    if zscore_threshold < |summary.zScore| then
      evaluate_zscore_alert st now summary.zScore zscore_threshold
    else st
  let st2 := evaluate_correlation_alert st1 now summary.correlation (1/2)
  evaluate_volatility_alert st2 now summary.rollingVolatility 500

/-- `AlertManager.get_active_alerts`: reverse the ring (newest first),
then truncate only when `limit` is truthy (`if limit:` in Python is
false both for `None` and for `0`). -/
def get_active_alerts (alerts : List Alert) (limit : Option ℕ) : List Alert :=
  let l := alerts.reverse
  match limit with
  | none => l
  | some n => if n = 0 then l else l.take n

/-! ### C10 -/

/-- C10: querying the alert ring with `limit = 0` returns every retained
alert, newest first, rather than an empty list; only a strictly positive
limit truncates the result (a falsy limit means "no limit", exactly like
omitting it). -/
theorem claim_C10 (alerts : List Alert) :
    get_active_alerts alerts (some 0) = alerts.reverse ∧
    get_active_alerts alerts none = alerts.reverse ∧
    ∀ n : ℕ, 0 < n → get_active_alerts alerts (some n) = alerts.reverse.take n := by
  refine ⟨rfl, rfl, ?_⟩
  intro n hn
  simp [get_active_alerts, Nat.pos_iff_ne_zero.mp hn]

/-- C10 witness: positive limit 2 on a concrete three-alert ring. -/
theorem claim_C10_witness :
    (0 : ℕ) < 2 ∧
      get_active_alerts
        [{ type := "a", title := "t", message := "m", symbol := none, value := none,
           metric := none, threshold := none, direction := none },
         { type := "b", title := "t", message := "m", symbol := none, value := none,
           metric := none, threshold := none, direction := none },
         { type := "c", title := "t", message := "m", symbol := none, value := none,
           metric := none, threshold := none, direction := none }] (some 2) =
      ([{ type := "a", title := "t", message := "m", symbol := none, value := none,
          metric := none, threshold := none, direction := none },
        { type := "b", title := "t", message := "m", symbol := none, value := none,
          metric := none, threshold := none, direction := none },
        { type := "c", title := "t", message := "m", symbol := none, value := none,
          metric := none, threshold := none, direction := none }] :
          List Alert).reverse.take 2 :=
  ⟨by decide, (claim_C10 _).2.2 2 (by decide)⟩

/-! ### C5 -/

/-- The alert record `create_alert` builds from its arguments. -/
def mkAlert (args : AlertArgs) : Alert :=
  { type := args.alert_type, title := args.title, message := args.message
    symbol := args.symbol, value := args.value, metric := args.metric
    threshold := args.threshold, direction := args.direction }

/-- Folding a list of `create_alert` requests (instant, arguments) and
recording, in order, the instant and cooldown key of every emitted
alert. -/
def alert_trace (st : AlertManagerState) : List (ℚ × AlertArgs) → List (ℚ × String)
  | [] => []
  | (t, args) :: rest =>
    let r := create_alert st t args
    (if r.1.isSome then [(t, alert_key args)] else []) ++ alert_trace r.2 rest

/-- The instants of the emissions with cooldown key `K` along a trace. -/
def keyTimes (K : String) (st : AlertManagerState) (reqs : List (ℚ × AlertArgs)) : List ℚ :=
  ((alert_trace st reqs).filter (fun p => p.2 = K)).map Prod.fst

/-- Any two consecutive emissions with the same key are separated by at
least `cooldown_seconds`, and the first one respects a pre-existing
registry entry. -/
theorem keyTimes_chain (K : String) :
    ∀ (reqs : List (ℚ × AlertArgs)) (st : AlertManagerState),
      List.Chain' (fun a b => st.cooldown_seconds ≤ b - a) (keyTimes K st reqs) ∧
      (∀ t0, st.last_alert_time K = some t0 →
        ∀ h ∈ (keyTimes K st reqs).head?, st.cooldown_seconds ≤ h - t0) := by
  intro reqs
  induction reqs with
  | nil => intro st; simp [keyTimes, alert_trace]
  | cons req rest ih =>
    intro st
    obtain ⟨t, args⟩ := req
    by_cases hf : should_fire_alert st t (alert_key args) = true
    · -- the head request emits
      have hstep :
          create_alert st t args =
            (some (mkAlert args),
              { st with
                  alerts := dequeAppend st.max_alerts st.alerts (mkAlert args)
                  last_alert_time := updFn st.last_alert_time (alert_key args) (some t) }) := by
        simp [create_alert, hf, mkAlert]
      by_cases hK : alert_key args = K
      · -- emission with key K: it heads the K-trace
        have hts :
            keyTimes K st ((t, args) :: rest) =
              t :: keyTimes K
                { st with
                    alerts := dequeAppend st.max_alerts st.alerts (mkAlert args)
                    last_alert_time := updFn st.last_alert_time (alert_key args) (some t) } rest := by
          simp [keyTimes, alert_trace, hstep, hK]
        have ih' := ih { st with
          alerts := dequeAppend st.max_alerts st.alerts (mkAlert args)
          last_alert_time := updFn st.last_alert_time (alert_key args) (some t) }
        have hreg : (updFn st.last_alert_time (alert_key args) (some t)) K = some t := by
          show (if K = alert_key args then some t else st.last_alert_time K) = some t
          exact if_pos hK.symm
        constructor
        · rw [hts, List.chain'_cons']
          refine ⟨?_, ih'.1⟩
          intro h hh
          exact ih'.2 t hreg h hh
        · intro t0 ht0 h hh
          rw [hts] at hh
          simp only [List.head?_cons, Option.mem_def, Option.some.injEq] at hh
          subst hh
          -- the head fired, so the cooldown against the seed entry holds
          simp only [should_fire_alert, hK, ht0, decide_eq_true_eq] at hf
          exact hf
      · -- emission with a different key: the K-trace is unchanged in shape
        have hts :
            keyTimes K st ((t, args) :: rest) =
              keyTimes K
                { st with
                    alerts := dequeAppend st.max_alerts st.alerts (mkAlert args)
                    last_alert_time := updFn st.last_alert_time (alert_key args) (some t) } rest := by
          simp [keyTimes, alert_trace, hstep, hK]
        have ih' := ih { st with
          alerts := dequeAppend st.max_alerts st.alerts (mkAlert args)
          last_alert_time := updFn st.last_alert_time (alert_key args) (some t) }
        have hreg : (updFn st.last_alert_time (alert_key args) (some t)) K = st.last_alert_time K := by
          show (if K = alert_key args then some t else st.last_alert_time K) = st.last_alert_time K
          exact if_neg (fun h => hK h.symm)
        refine ⟨by rw [hts]; exact ih'.1, ?_⟩
        intro t0 ht0 h hh
        rw [hts] at hh
        refine ih'.2 t0 ?_ h hh
        show (updFn st.last_alert_time (alert_key args) (some t)) K = some t0
        rw [hreg]
        exact ht0
    · -- suppressed: state and K-trace both unchanged
      have hstep : create_alert st t args = (none, st) := by
        simp [create_alert, hf]
      have hts : keyTimes K st ((t, args) :: rest) = keyTimes K st rest := by
        simp [keyTimes, alert_trace, hstep]
      have ih' := ih st
      exact ⟨by rw [hts]; exact ih'.1, fun t0 ht0 h hh => ih'.2 t0 ht0 h (by rw [hts] at hh; exact hh)⟩

/-- C5: per-key cooldown.  A suppressed `create_alert` call returns
`none` and leaves the whole state (ring and registry) unchanged; an
emitting call appends exactly one alert to the ring and refreshes
`last_alert_time` at its key to the call instant; and along any request
trace the instants of consecutive emissions with the same key `K` differ
by at least `cooldown_seconds` (60 by default). -/
theorem claim_C5 (st : AlertManagerState) (now : ℚ) (args : AlertArgs)
    (K : String) (reqs : List (ℚ × AlertArgs)) :
    (should_fire_alert st now (alert_key args) = false →
      create_alert st now args = (none, st)) ∧
    (should_fire_alert st now (alert_key args) = true →
      create_alert st now args =
        (some (mkAlert args),
          { st with
              alerts := dequeAppend st.max_alerts st.alerts (mkAlert args)
              last_alert_time := updFn st.last_alert_time (alert_key args) (some now) }) ∧
      (create_alert st now args).2.last_alert_time (alert_key args) = some now) ∧
    List.Chain' (fun a b => st.cooldown_seconds ≤ b - a) (keyTimes K st reqs) ∧
    initAlertManager.cooldown_seconds = 60 := by
  refine ⟨?_, ?_, (keyTimes_chain K reqs st).1, rfl⟩
  · intro hf
    simp [create_alert, hf]
  · intro hf
    constructor
    · simp [create_alert, hf, mkAlert]
    · simp [create_alert, hf, updFn]

/-- C5 witness: a key that fired at instant 0 is suppressed at instant
30 (cooldown 60), and the suppressed call leaves the state unchanged. -/
theorem claim_C5_witness :
    should_fire_alert
      { initAlertManager with
          last_alert_time := updFn (fun _ => none)
            (alert_key { alert_type := "ALERT", title := "T", message := "m" }) (some 0) }
      30 (alert_key { alert_type := "ALERT", title := "T", message := "m" }) = false ∧
    create_alert
      { initAlertManager with
          last_alert_time := updFn (fun _ => none)
            (alert_key { alert_type := "ALERT", title := "T", message := "m" }) (some 0) }
      30 { alert_type := "ALERT", title := "T", message := "m" } =
      (none,
        { initAlertManager with
            last_alert_time := updFn (fun _ => none)
              (alert_key { alert_type := "ALERT", title := "T", message := "m" }) (some 0) }) := by
  have hf :
      should_fire_alert
        { initAlertManager with
            last_alert_time := updFn (fun _ => none)
              (alert_key { alert_type := "ALERT", title := "T", message := "m" }) (some 0) }
        30 (alert_key { alert_type := "ALERT", title := "T", message := "m" }) = false := by
    norm_num [should_fire_alert, updFn, initAlertManager]
  exact ⟨hf, (claim_C5 _ 30 _ "" []).1 hf⟩

/-! ### C2 -/

/-- A summary snapshot whose z-score lies in the warning band
(0.8·2 < 1.9 ≤ 2) and triggers neither the correlation rule
(|0.9| ≥ 0.5) nor the volatility rule (10 ≤ 500). -/
def summary_C2 : SummaryStats :=
  { spread := 0, zScore := 19/10, correlation := 9/10, rollingVolatility := 10 }

/-- C2 counterexample: invoking alert evaluation on a summary snapshot
with 0.8·threshold < |z| ≤ threshold creates no alert at all — the
z-score rule in `evaluate_summary_alerts` is guarded by
`|z| > threshold`, so the warning branch of `evaluate_zscore_alert` is
never reached from a summary snapshot.  Fresh manager, so no cooldown
is active. -/
theorem claim_C2_counterexample :
    2 * (4/5) < |(19/10 : ℚ)| ∧ |(19/10 : ℚ)| ≤ 2 ∧
    (evaluate_summary_alerts initAlertManager 0 summary_C2 2).alerts = [] := by
  have habs : |(19/10 : ℚ)| = 19/10 := abs_of_pos (by norm_num)
  refine ⟨by rw [habs]; norm_num, by rw [habs]; norm_num, ?_⟩
  have hz : ¬ (2 : ℚ) < |summary_C2.zScore| := by
    show ¬ (2 : ℚ) < |(19/10 : ℚ)|
    rw [habs]; norm_num
  have hc : ¬ |summary_C2.correlation| < (1/2 : ℚ) := by
    show ¬ |(9/10 : ℚ)| < (1/2 : ℚ)
    rw [abs_of_pos (by norm_num : (0:ℚ) < 9/10)]; norm_num
  have hv : ¬ (500 : ℚ) < summary_C2.rollingVolatility := by
    show ¬ (500 : ℚ) < 10
    norm_num
  simp only [evaluate_summary_alerts, evaluate_correlation_alert, evaluate_volatility_alert]
  rw [if_neg hz, if_neg hc, if_neg hv]
  rfl

/-- C2 amended: when 0.8·T < |z| ≤ T, `evaluate_summary_alerts` skips
the z-score rule entirely (it reduces to the correlation and volatility
rules), and the warning alert with kind `warning`, metric `z_score` and
threshold 0.8·T is created (subject to cooldown) only when
`evaluate_zscore_alert` is invoked directly with such a z-score. -/
theorem claim_C2_amended (st : AlertManagerState) (now : ℚ) (z T : ℚ)
    (h1 : T * (4/5) < |z|) (h2 : |z| ≤ T) :
    evaluate_zscore_alert st now z T =
      (create_alert st now
        { alert_type := "warning", title := "Z-Score Approaching Threshold"
          message := zscore_approach_message, value := some z, metric := some "z_score"
          threshold := some (T * (4/5))
          direction := some (if 0 < z then "above" else "below") }).2 ∧
    (should_fire_alert st now "warning:Z-Score Approaching Threshold:None" = true →
      (evaluate_zscore_alert st now z T).alerts =
        dequeAppend st.max_alerts st.alerts
          { type := "warning", title := "Z-Score Approaching Threshold"
            message := zscore_approach_message, symbol := none, value := some z
            metric := some "z_score", threshold := some (T * (4/5))
            direction := some (if 0 < z then "above" else "below") }) ∧
    (∀ summary : SummaryStats, summary.zScore = z →
      evaluate_summary_alerts st now summary T =
        evaluate_volatility_alert
          (evaluate_correlation_alert st now summary.correlation (1/2)) now
          summary.rollingVolatility 500) := by
  have hz : ¬ T < |z| := not_lt.mpr h2
  refine ⟨?_, ?_, ?_⟩
  · rw [evaluate_zscore_alert, if_neg hz, if_pos h1]
  · intro hf
    have hkey :
        alert_key
          { alert_type := "warning", title := "Z-Score Approaching Threshold"
            message := zscore_approach_message, value := some z, metric := some "z_score"
            threshold := some (T * (4/5))
            direction := some (if 0 < z then "above" else "below") } =
          "warning:Z-Score Approaching Threshold:None" := rfl
    rw [evaluate_zscore_alert, if_neg hz, if_pos h1, create_alert]
    rw [hkey, if_pos hf]
  · intro summary hsz
    rw [evaluate_summary_alerts]
    rw [hsz, if_neg hz]

/-- C2 amended, witness: z = 1.9 and T = 2 on a fresh manager; the
direct call appends the warning alert. -/
theorem claim_C2_amended_witness :
    (2 : ℚ) * (4/5) < |(19/10 : ℚ)| ∧ |(19/10 : ℚ)| ≤ 2 ∧
    (evaluate_zscore_alert initAlertManager 0 (19/10) 2).alerts =
      dequeAppend initAlertManager.max_alerts initAlertManager.alerts
        { type := "warning", title := "Z-Score Approaching Threshold"
          message := zscore_approach_message, symbol := none, value := some (19/10)
          metric := some "z_score", threshold := some ((2 : ℚ) * (4/5))
          direction := some (if (0 : ℚ) < 19/10 then "above" else "below") } := by
  have habs : |(19/10 : ℚ)| = 19/10 := abs_of_pos (by norm_num)
  have h1 : (2 : ℚ) * (4/5) < |(19/10 : ℚ)| := by rw [habs]; norm_num
  have h2 : |(19/10 : ℚ)| ≤ 2 := by rw [habs]; norm_num
  exact ⟨h1, h2, (claim_C2_amended initAlertManager 0 (19/10) 2 h1 h2).2.1 rfl⟩

/-! ## Tick buffer (src/BackEnd/app/ingestion.py)

`TickData.timestamp` is an ISO-8601 string in the schema; the buffer
never inspects it, so it is modelled as an integer instant. -/

structure TickData where
  symbol : String
  price : ℚ
  timestamp : ℤ
  qty : ℚ
deriving DecidableEq, Repr

/-- The settings default `TICK_BUFFER_SIZE`. -/
def TICK_BUFFER_SIZE : ℕ := 10000

/-- `TickBuffer.__init__`: empty deque with `maxlen = max_size`. -/
structure TickBuffer where
  symbol : String
  max_size : ℕ
  ticks : List TickData
  last_tick : Option TickData
  tick_count : ℕ

/-- A fresh `TickBuffer` for `symbol` with capacity `max_size`. -/
def mkTickBuffer (symbol : String) (max_size : ℕ) : TickBuffer :=
  { symbol := symbol, max_size := max_size, ticks := [], last_tick := none, tick_count := 0 }

/-- `TickBuffer.add_tick`: append to the bounded deque, remember the
tick as `last_tick`, bump `tick_count`. -/
def add_tick (b : TickBuffer) (t : TickData) : TickBuffer :=
  { b with
      ticks := dequeAppend b.max_size b.ticks t
      last_tick := some t
      tick_count := b.tick_count + 1 }

/-- Ingesting a whole sequence of ticks, oldest first. -/
def ingest_all (b : TickBuffer) (ts : List TickData) : TickBuffer :=
  ts.foldl add_tick b

/-- One bounded-deque append keeps at most `cap` elements. -/
theorem dequeAppend_length {α : Type} (cap : ℕ) (xs : List α) (a : α) :
    (dequeAppend cap xs a).length = min (xs.length + 1) cap ∨
    (cap < xs.length + 1 ∧ (dequeAppend cap xs a).length = cap) := by
  left
  unfold dequeAppend
  split
  · rename_i h
    simp only [List.length_drop, List.length_append, List.length_cons, List.length_nil] at *
    omega
  · rename_i h
    simp only [List.length_append, List.length_cons, List.length_nil] at *
    omega

/-- One bounded-deque append yields a suffix of `xs ++ [a]`. -/
theorem dequeAppend_suffix {α : Type} (cap : ℕ) (xs : List α) (a : α) :
    dequeAppend cap xs a <:+ xs ++ [a] := by
  unfold dequeAppend
  split
  · exact List.drop_suffix _ _
  · exact List.suffix_refl _

/-- Folding bounded-deque appends yields a suffix of the full sequence. -/
theorem foldl_dequeAppend_suffix {α : Type} (cap : ℕ) :
    ∀ (ts xs : List α), List.foldl (dequeAppend cap) xs ts <:+ xs ++ ts := by
  intro ts
  induction ts with
  | nil => intro xs; simp
  | cons a ts' ih =>
    intro xs
    have h1 : List.foldl (dequeAppend cap) (dequeAppend cap xs a) ts' <:+
        dequeAppend cap xs a ++ ts' := ih (dequeAppend cap xs a)
    have h2 : dequeAppend cap xs a ++ ts' <:+ (xs ++ [a]) ++ ts' := by
      obtain ⟨p, hp⟩ := dequeAppend_suffix cap xs a
      exact ⟨p, by rw [← hp, List.append_assoc]⟩
    have h3 : (xs ++ [a]) ++ ts' = xs ++ (a :: ts') := by simp
    rw [List.foldl_cons]
    exact (h1.trans h2).trans (h3 ▸ List.suffix_refl _)

/-- Folding bounded-deque appends keeps exactly `min (total) cap`
elements when the start is within bounds. -/
theorem foldl_dequeAppend_length {α : Type} (cap : ℕ) :
    ∀ (ts xs : List α), xs.length ≤ cap →
      (List.foldl (dequeAppend cap) xs ts).length = min (xs.length + ts.length) cap := by
  intro ts
  induction ts with
  | nil => intro xs h; simp; omega
  | cons a ts' ih =>
    intro xs h
    have hlen : (dequeAppend cap xs a).length = min (xs.length + 1) cap := by
      rcases dequeAppend_length cap xs a with h' | h'
      · exact h'
      · omega
    have hle : (dequeAppend cap xs a).length ≤ cap := by omega
    rw [List.foldl_cons, ih _ hle, hlen]
    simp only [List.length_cons]
    omega

/-- C8: after ingesting the sequence `ts` into a fresh buffer of
capacity `C`, the buffer holds exactly `min |ts| C` ticks, those ticks
are a suffix of `ts` in ingestion order (eviction is strictly
oldest-first), and — for a positive capacity and a non-empty sequence —
the last element of the buffer is the most recently ingested tick
(which `last_tick` also records). -/
theorem claim_C8 (sym : String) (C : ℕ) (ts : List TickData) :
    (ingest_all (mkTickBuffer sym C) ts).ticks.length = min ts.length C ∧
    (ingest_all (mkTickBuffer sym C) ts).ticks <:+ ts ∧
    (0 < C → ts ≠ [] →
      (ingest_all (mkTickBuffer sym C) ts).ticks.getLast? = ts.getLast?) ∧
    (ts ≠ [] → (ingest_all (mkTickBuffer sym C) ts).last_tick = ts.getLast?) := by
  have hticks : ∀ (l : List TickData) (b : TickBuffer),
      (ingest_all b l).ticks = List.foldl (dequeAppend b.max_size) b.ticks l := by
    intro l
    induction l with
    | nil => intro b; rfl
    | cons t l' ih =>
      intro b
      show (ingest_all (add_tick b t) l').ticks = _
      rw [ih (add_tick b t)]
      rfl
  have hmain : (ingest_all (mkTickBuffer sym C) ts).ticks =
      List.foldl (dequeAppend C) [] ts := hticks ts (mkTickBuffer sym C)
  have hlen : (List.foldl (dequeAppend C) ([] : List TickData) ts).length = min ts.length C := by
    have := foldl_dequeAppend_length C ts [] (by simp)
    simpa using this
  have hsuf : List.foldl (dequeAppend C) ([] : List TickData) ts <:+ ts := by
    have := foldl_dequeAppend_suffix C ts []
    simpa using this
  refine ⟨by rw [hmain]; exact hlen, by rw [hmain]; exact hsuf, ?_, ?_⟩
  · intro hC hne
    rw [hmain]
    obtain ⟨p, hp⟩ := hsuf
    have hne' : List.foldl (dequeAppend C) ([] : List TickData) ts ≠ [] := by
      intro h0
      rw [h0] at hlen
      have : 0 < ts.length := List.length_pos.mpr hne
      simp at hlen
      omega
    conv_rhs => rw [← hp]
    exact (List.getLast?_append_of_ne_nil p hne').symm
  · intro hne
    have hlast : ∀ (l : List TickData) (b : TickBuffer), l ≠ [] →
        (ingest_all b l).last_tick = l.getLast? := by
      intro l
      induction l with
      | nil => intro b h; exact absurd rfl h
      | cons t l' ih =>
        intro b _
        cases l' with
        | nil => rfl
        | cons u l'' =>
          show (ingest_all (add_tick b t) (u :: l'')).last_tick = _
          rw [ih (add_tick b t) (by simp), List.getLast?_cons_cons]
    exact hlast ts _ hne

/-- C8 witness: three ticks into a buffer of capacity 2 keep the last
two, and the newest tick is last. -/
theorem claim_C8_witness :
    (0 : ℕ) < 2 ∧
    ([⟨"S", 1, 0, 1⟩, ⟨"S", 2, 1, 1⟩, ⟨"S", 3, 2, 1⟩] : List TickData) ≠ [] ∧
    (ingest_all (mkTickBuffer "S" 2)
        [⟨"S", 1, 0, 1⟩, ⟨"S", 2, 1, 1⟩, ⟨"S", 3, 2, 1⟩]).ticks.getLast? =
      ([⟨"S", 1, 0, 1⟩, ⟨"S", 2, 1, 1⟩, ⟨"S", 3, 2, 1⟩] : List TickData).getLast? :=
  ⟨by decide, by decide,
    (claim_C8 "S" 2 _).2.2.1 (by decide) (by decide)⟩

/-! ## Resampler (src/BackEnd/app/resampling.py)

Trade-times are milliseconds since the epoch; `tick_time.replace(microsecond=0)`
is flooring to the second and `tick_time.replace(second=0, microsecond=0)`
flooring to the minute.  `Bar.contribs` is a ghost field recording the
trade-times of the ticks folded into the bar (created-with or updated-by);
it is bookkeeping used only to state which ticks contributed to a bar and
does not influence any other field. -/

structure Tick where
  price : ℚ
  qty : ℚ
  time : ℕ
deriving DecidableEq, Repr

/-- Floor of a millisecond instant to its second. -/
def floorSec (t : ℕ) : ℕ := t / 1000 * 1000

/-- Floor of a millisecond instant to its minute. -/
def floorMin (t : ℕ) : ℕ := t / 60000 * 60000

structure Bar where
  timestamp : ℕ
  «open» : ℚ
  high : ℚ
  low : ℚ
  close : ℚ
  volume : ℚ
  symbol : String
  interval : String
  contribs : List ℕ
deriving DecidableEq, Repr

/-- `ResamplingEngine` state: per-symbol archived and current bars. -/
structure EngineState where
  second_bars : String → List Bar
  minute_bars : String → List Bar
  current_second_bar : String → Option Bar
  current_minute_bar : String → Option Bar
  max_bars_per_symbol : ℕ

/-- `ResamplingEngine.__init__` (`max_bars_per_symbol = 1000`). -/
def initEngine : EngineState :=
  { second_bars := fun _ => []
    minute_bars := fun _ => []
    current_second_bar := fun _ => none
    current_minute_bar := fun _ => none
    max_bars_per_symbol := 1000 }

/-- `ResamplingEngine._bar_exists`. -/
def bar_exists (bar_list : List Bar) (timestamp : ℕ) : Bool :=
  bar_list.any (fun bar => bar.timestamp == timestamp)

/-- Trimming an archived list to the newest `cap` bars
(`bars[-cap:]` when the bound is exceeded). -/
def trimBars (cap : ℕ) (l : List Bar) : List Bar :=
  if cap < l.length then pySliceLast l cap else l

/-- Archiving a finalized bar: append only if no bar with the same
bucket-start is stored, then trim. -/
def store_bar (cap : ℕ) (l : List Bar) (b : Bar) : List Bar :=
  if bar_exists l b.timestamp then l else trimBars cap (l ++ [b])

/-- A fresh bar opened from tick `t` for bucket `ts`. -/
def newBar (t : Tick) (ts : ℕ) (symbol interval : String) : Bar :=
  { timestamp := ts, «open» := t.price, high := t.price, low := t.price
    close := t.price, volume := t.qty, symbol := symbol, interval := interval
    contribs := [t.time] }

/-- Folding tick `t` into an existing bar: high/low stretched, close
replaced, volume accumulated. -/
def updateBar (b : Bar) (t : Tick) : Bar :=
  { b with
      high := max b.high t.price
      low := min b.low t.price
      close := t.price
      volume := b.volume + t.qty
      contribs := b.contribs ++ [t.time] }

/-- `ResamplingEngine._process_second_bar`: on any change of second
bucket (`current.timestamp != second_start`, later OR earlier), archive
the current bar and open a new one at the tick's bucket; otherwise fold
the tick in. -/
def process_second_bar (st : EngineState) (t : Tick) (symbol : String) : EngineState :=
  let second_start := floorSec t.time
  match st.current_second_bar symbol with
  | none =>
    { st with
        current_second_bar := updFn st.current_second_bar symbol
          (some (newBar t second_start symbol "1s")) }
  | some cur =>
    if cur.timestamp ≠ second_start then
      { st with
          second_bars := updFn st.second_bars symbol
            (store_bar st.max_bars_per_symbol (st.second_bars symbol) cur)
          current_second_bar := updFn st.current_second_bar symbol
            (some (newBar t second_start symbol "1s")) }
    else
      { st with
          current_second_bar := updFn st.current_second_bar symbol
            (some (updateBar cur t)) }

/-- `ResamplingEngine._process_minute_bar`: archive the current bar only
when the tick's minute bucket is strictly newer; then open a bar for the
tick's bucket if none is current, else fold the tick into the current
bar (this folds late ticks — `minute_start < current.timestamp` — into
the newer current bar). -/
def process_minute_bar (st : EngineState) (t : Tick) (symbol : String) : EngineState :=
  let minute_start := floorMin t.time
  match st.current_minute_bar symbol with
  | none =>
    { st with
        current_minute_bar := updFn st.current_minute_bar symbol
          (some (newBar t minute_start symbol "1m")) }
  | some cur =>
    if cur.timestamp < minute_start then
      -- the source archives `cur`, deletes the current entry, and the
      -- following block immediately re-creates it; the delete+create
      -- pair is fused into one update of `current_minute_bar`
      { st with
          minute_bars := updFn st.minute_bars symbol
            (store_bar st.max_bars_per_symbol (st.minute_bars symbol) cur)
          current_minute_bar := updFn st.current_minute_bar symbol
            (some (newBar t minute_start symbol "1m")) }
    else
      { st with
          current_minute_bar := updFn st.current_minute_bar symbol
            (some (updateBar cur t)) }

/-- `ResamplingEngine._process_tick`: the 1s path, then the 1m path. -/
def process_tick (st : EngineState) (t : Tick) (symbol : String) : EngineState :=
  process_minute_bar (process_second_bar st t symbol) t symbol

/-- Processing a stream of (tick, symbol) pairs in order. -/
def process_all (st : EngineState) : List (Tick × String) → EngineState
  | [] => st
  | (t, sym) :: rest => process_all (process_tick st t sym) rest

/-! ### C1 -/

/-- C1 counterexample: a late tick is not dropped.  After a tick at
minute 1 (time 60000 ms, price 100), a tick at time 30000 ms (bucket
minute 0, strictly earlier than the current bar's bucket-start 60000)
changes the current 1-minute bar (its close becomes 50) and changes the
finalized 1-second history (the 60000 bar is archived). -/
theorem claim_C1_counterexample :
    floorMin 30000 < 60000 ∧
    ((process_tick initEngine ⟨100, 1, 60000⟩ "BTCUSDT").current_minute_bar
        "BTCUSDT").map Bar.timestamp = some 60000 ∧
    ((process_tick initEngine ⟨100, 1, 60000⟩ "BTCUSDT").current_minute_bar
        "BTCUSDT").map Bar.close = some 100 ∧
    ((process_tick (process_tick initEngine ⟨100, 1, 60000⟩ "BTCUSDT")
        ⟨50, 1, 30000⟩ "BTCUSDT").current_minute_bar "BTCUSDT").map Bar.close = some 50 ∧
    (process_tick initEngine ⟨100, 1, 60000⟩ "BTCUSDT").second_bars "BTCUSDT" = [] ∧
    ((process_tick (process_tick initEngine ⟨100, 1, 60000⟩ "BTCUSDT")
        ⟨50, 1, 30000⟩ "BTCUSDT").second_bars "BTCUSDT").map Bar.timestamp = [60000] := by
  refine ⟨by norm_num [floorMin], ?_, ?_, ?_, ?_, ?_⟩ <;> rfl

/-- C1 amended: a late tick (bucket strictly earlier than the current
bar's bucket-start) is not dropped.  For the 1m interval it is folded
into the current bar exactly as an in-bucket tick would be, leaving the
finalized minute history unchanged; for the 1s interval the current bar
is archived into the 1s history and a new current bar is opened at the
late tick's bucket. -/
theorem claim_C1_amended (st : EngineState) (t : Tick) (sym : String) :
    (∀ b, st.current_minute_bar sym = some b → floorMin t.time < b.timestamp →
      (process_minute_bar st t sym).minute_bars = st.minute_bars ∧
      (process_minute_bar st t sym).current_minute_bar sym = some (updateBar b t)) ∧
    (∀ b, st.current_second_bar sym = some b → floorSec t.time < b.timestamp →
      (process_second_bar st t sym).second_bars sym =
        store_bar st.max_bars_per_symbol (st.second_bars sym) b ∧
      (process_second_bar st t sym).current_second_bar sym =
        some (newBar t (floorSec t.time) sym "1s")) := by
  constructor
  · intro b hb hlt
    have hnot : ¬ b.timestamp < floorMin t.time := by omega
    unfold process_minute_bar
    simp only [hb, if_neg hnot, updFn]
    simp
  · intro b hb hlt
    have hne : b.timestamp ≠ floorSec t.time := by omega
    unfold process_second_bar
    simp only [hb, if_pos hne, updFn]
    simp

/-- C1 amended, witness: the concrete late tick of the counterexample,
fed through the amended description. -/
theorem claim_C1_amended_witness :
    (process_tick initEngine ⟨100, 1, 60000⟩ "BTCUSDT").current_minute_bar "BTCUSDT" =
      some (newBar ⟨100, 1, 60000⟩ 60000 "BTCUSDT" "1m") ∧
    floorMin 30000 < 60000 ∧
    (process_minute_bar (process_tick initEngine ⟨100, 1, 60000⟩ "BTCUSDT")
        ⟨50, 1, 30000⟩ "BTCUSDT").current_minute_bar "BTCUSDT" =
      some (updateBar (newBar ⟨100, 1, 60000⟩ 60000 "BTCUSDT" "1m") ⟨50, 1, 30000⟩) := by
  have hb : (process_tick initEngine ⟨100, 1, 60000⟩ "BTCUSDT").current_minute_bar "BTCUSDT" =
      some (newBar ⟨100, 1, 60000⟩ 60000 "BTCUSDT" "1m") := rfl
  have hlt : floorMin 30000 < 60000 := by norm_num [floorMin]
  exact ⟨hb, hlt,
    ((claim_C1_amended (process_tick initEngine ⟨100, 1, 60000⟩ "BTCUSDT")
      ⟨50, 1, 30000⟩ "BTCUSDT").1 _ hb hlt).2⟩

/-! ### C7 -/

/-- A tick with positive price and non-negative quantity. -/
def ValidTick (t : Tick) : Prop := 0 < t.price ∧ 0 ≤ t.qty

/-- The OHLCV bar invariant of the claim. -/
def goodBar (b : Bar) : Prop :=
  b.low ≤ b.«open» ∧ b.«open» ≤ b.high ∧ b.low ≤ b.close ∧ b.close ≤ b.high ∧ 0 ≤ b.volume

/-- Every contributing tick's trade-time floors to the bar's bucket. -/
def contribOK (floorF : ℕ → ℕ) (b : Bar) : Prop :=
  ∀ τ ∈ b.contribs, floorF τ = b.timestamp

/-- The OHLCV invariant over every bar held by the engine. -/
def GoodOHLC (st : EngineState) : Prop :=
  ∀ sym, (∀ b ∈ st.second_bars sym, goodBar b) ∧
         (∀ b ∈ st.minute_bars sym, goodBar b) ∧
         (∀ b, st.current_second_bar sym = some b → goodBar b) ∧
         (∀ b, st.current_minute_bar sym = some b → goodBar b)

/-- The bucket property over every 1s bar held by the engine. -/
def SecContrib (st : EngineState) : Prop :=
  ∀ sym, (∀ b ∈ st.second_bars sym, contribOK floorSec b) ∧
         (∀ b, st.current_second_bar sym = some b → contribOK floorSec b)

/-- The bucket property over every 1m bar held by the engine. -/
def MinContrib (st : EngineState) : Prop :=
  ∀ sym, (∀ b ∈ st.minute_bars sym, contribOK floorMin b) ∧
         (∀ b, st.current_minute_bar sym = some b → contribOK floorMin b)

/-- Every current minute bar's bucket is at most the minute of the last
processed trade-time `lo`. -/
def MinSync (st : EngineState) (lo : ℕ) : Prop :=
  ∀ sym b, st.current_minute_bar sym = some b → b.timestamp ≤ floorMin lo

theorem floorMin_mono {a b : ℕ} (h : a ≤ b) : floorMin a ≤ floorMin b :=
  Nat.mul_le_mul_right _ (Nat.div_le_div_right h)

theorem goodBar_newBar (t : Tick) (ts : ℕ) (sym iv : String) (h : ValidTick t) :
    goodBar (newBar t ts sym iv) :=
  ⟨le_refl _, le_refl _, le_refl _, le_refl _, h.2⟩

theorem goodBar_updateBar (b : Bar) (t : Tick) (hb : goodBar b) (h : ValidTick t) :
    goodBar (updateBar b t) := by
  obtain ⟨h1, h2, h3, h4, h5⟩ := hb
  exact ⟨le_trans (min_le_left _ _) h1,
         le_trans h2 (le_max_left _ _),
         min_le_right _ _,
         le_max_right _ _,
         add_nonneg h5 h.2⟩

theorem mem_store_bar {cap : ℕ} {l : List Bar} {b x : Bar}
    (h : x ∈ store_bar cap l b) : x ∈ l ∨ x = b := by
  unfold store_bar at h
  split at h
  · exact Or.inl h
  · unfold trimBars pySliceLast at h
    have h' : x ∈ l ++ [b] := by
      split at h
      · split at h
        · exact h
        · exact List.mem_of_mem_drop h
      · exact h
    rcases List.mem_append.mp h' with h'' | h''
    · exact Or.inl h''
    · exact Or.inr (List.mem_singleton.mp h'')

/-- The 1s path never touches the minute-side fields. -/
theorem process_second_bar_minutes (st : EngineState) (t : Tick) (sym : String) :
    (process_second_bar st t sym).minute_bars = st.minute_bars ∧
    (process_second_bar st t sym).current_minute_bar = st.current_minute_bar ∧
    (process_second_bar st t sym).max_bars_per_symbol = st.max_bars_per_symbol := by
  unfold process_second_bar
  cases st.current_second_bar sym with
  | none => exact ⟨rfl, rfl, rfl⟩
  | some cur =>
    dsimp only
    split
    · exact ⟨rfl, rfl, rfl⟩
    · exact ⟨rfl, rfl, rfl⟩

/-- The 1m path never touches the second-side fields. -/
theorem process_minute_bar_seconds (st : EngineState) (t : Tick) (sym : String) :
    (process_minute_bar st t sym).second_bars = st.second_bars ∧
    (process_minute_bar st t sym).current_second_bar = st.current_second_bar ∧
    (process_minute_bar st t sym).max_bars_per_symbol = st.max_bars_per_symbol := by
  unfold process_minute_bar
  cases st.current_minute_bar sym with
  | none => exact ⟨rfl, rfl, rfl⟩
  | some cur =>
    dsimp only
    split
    · exact ⟨rfl, rfl, rfl⟩
    · exact ⟨rfl, rfl, rfl⟩

/-- The 1s fold step, fresh-bar case. -/
theorem process_second_bar_eq_none (st : EngineState) (t : Tick) (sym : String)
    (hc : st.current_second_bar sym = none) :
    process_second_bar st t sym =
      { st with
          current_second_bar :=
            updFn st.current_second_bar sym (some (newBar t (floorSec t.time) sym "1s")) } := by
  unfold process_second_bar
  rw [hc]

/-- The 1s fold step, bucket-change case (later or earlier bucket). -/
theorem process_second_bar_eq_roll (st : EngineState) (t : Tick) (sym : String) (cur : Bar)
    (hc : st.current_second_bar sym = some cur) (hne : cur.timestamp ≠ floorSec t.time) :
    process_second_bar st t sym =
      { st with
          second_bars :=
            updFn st.second_bars sym (store_bar st.max_bars_per_symbol (st.second_bars sym) cur)
          current_second_bar :=
            updFn st.current_second_bar sym (some (newBar t (floorSec t.time) sym "1s")) } := by
  unfold process_second_bar
  rw [hc]
  dsimp only
  rw [if_pos hne]

/-- The 1s fold step, same-bucket update case. -/
theorem process_second_bar_eq_update (st : EngineState) (t : Tick) (sym : String) (cur : Bar)
    (hc : st.current_second_bar sym = some cur) (hts : cur.timestamp = floorSec t.time) :
    process_second_bar st t sym =
      { st with
          current_second_bar :=
            updFn st.current_second_bar sym (some (updateBar cur t)) } := by
  unfold process_second_bar
  rw [hc]
  dsimp only
  rw [if_neg (fun hne => hne hts)]

/-- Case analysis of the 1s fold step. -/
theorem process_second_bar_cases (st : EngineState) (t : Tick) (sym : String) :
    (st.current_second_bar sym = none ∧
      process_second_bar st t sym =
        { st with
            current_second_bar :=
              updFn st.current_second_bar sym (some (newBar t (floorSec t.time) sym "1s")) }) ∨
    (∃ cur, st.current_second_bar sym = some cur ∧ cur.timestamp ≠ floorSec t.time ∧
      process_second_bar st t sym =
        { st with
            second_bars :=
              updFn st.second_bars sym (store_bar st.max_bars_per_symbol (st.second_bars sym) cur)
            current_second_bar :=
              updFn st.current_second_bar sym (some (newBar t (floorSec t.time) sym "1s")) }) ∨
    (∃ cur, st.current_second_bar sym = some cur ∧ cur.timestamp = floorSec t.time ∧
      process_second_bar st t sym =
        { st with
            current_second_bar :=
              updFn st.current_second_bar sym (some (updateBar cur t)) }) := by
  rcases Option.eq_none_or_eq_some (st.current_second_bar sym) with hc | ⟨cur, hc⟩
  · exact Or.inl ⟨hc, process_second_bar_eq_none st t sym hc⟩
  · by_cases hne : cur.timestamp = floorSec t.time
    · exact Or.inr (Or.inr ⟨cur, hc, hne, process_second_bar_eq_update st t sym cur hc hne⟩)
    · exact Or.inr (Or.inl ⟨cur, hc, hne, process_second_bar_eq_roll st t sym cur hc hne⟩)

/-- The 1m fold step, fresh-bar case. -/
theorem process_minute_bar_eq_none (st : EngineState) (t : Tick) (sym : String)
    (hc : st.current_minute_bar sym = none) :
    process_minute_bar st t sym =
      { st with
          current_minute_bar :=
            updFn st.current_minute_bar sym (some (newBar t (floorMin t.time) sym "1m")) } := by
  unfold process_minute_bar
  rw [hc]

/-- The 1m fold step, new-minute case: archive and reopen. -/
theorem process_minute_bar_eq_roll (st : EngineState) (t : Tick) (sym : String) (cur : Bar)
    (hc : st.current_minute_bar sym = some cur) (hlt : cur.timestamp < floorMin t.time) :
    process_minute_bar st t sym =
      { st with
          minute_bars :=
            updFn st.minute_bars sym (store_bar st.max_bars_per_symbol (st.minute_bars sym) cur)
          current_minute_bar :=
            updFn st.current_minute_bar sym (some (newBar t (floorMin t.time) sym "1m")) } := by
  unfold process_minute_bar
  rw [hc]
  dsimp only
  rw [if_pos hlt]

/-- The 1m fold step, update case (same minute or late tick). -/
theorem process_minute_bar_eq_update (st : EngineState) (t : Tick) (sym : String) (cur : Bar)
    (hc : st.current_minute_bar sym = some cur) (hlt : ¬ cur.timestamp < floorMin t.time) :
    process_minute_bar st t sym =
      { st with
          current_minute_bar :=
            updFn st.current_minute_bar sym (some (updateBar cur t)) } := by
  unfold process_minute_bar
  rw [hc]
  dsimp only
  rw [if_neg hlt]

/-- Case analysis of the 1m fold step. -/
theorem process_minute_bar_cases (st : EngineState) (t : Tick) (sym : String) :
    (st.current_minute_bar sym = none ∧
      process_minute_bar st t sym =
        { st with
            current_minute_bar :=
              updFn st.current_minute_bar sym (some (newBar t (floorMin t.time) sym "1m")) }) ∨
    (∃ cur, st.current_minute_bar sym = some cur ∧ cur.timestamp < floorMin t.time ∧
      process_minute_bar st t sym =
        { st with
            minute_bars :=
              updFn st.minute_bars sym (store_bar st.max_bars_per_symbol (st.minute_bars sym) cur)
            current_minute_bar :=
              updFn st.current_minute_bar sym (some (newBar t (floorMin t.time) sym "1m")) }) ∨
    (∃ cur, st.current_minute_bar sym = some cur ∧ ¬ cur.timestamp < floorMin t.time ∧
      process_minute_bar st t sym =
        { st with
            current_minute_bar :=
              updFn st.current_minute_bar sym (some (updateBar cur t)) }) := by
  rcases Option.eq_none_or_eq_some (st.current_minute_bar sym) with hc | ⟨cur, hc⟩
  · exact Or.inl ⟨hc, process_minute_bar_eq_none st t sym hc⟩
  · by_cases hlt : cur.timestamp < floorMin t.time
    · exact Or.inr (Or.inl ⟨cur, hc, hlt, process_minute_bar_eq_roll st t sym cur hc hlt⟩)
    · exact Or.inr (Or.inr ⟨cur, hc, hlt, process_minute_bar_eq_update st t sym cur hc hlt⟩)

theorem goodBar_store_bar {cap : ℕ} {l : List Bar} {c b : Bar}
    (hl : ∀ x ∈ l, goodBar x) (hc : goodBar c) (hb : b ∈ store_bar cap l c) :
    goodBar b := by
  rcases mem_store_bar hb with h | h
  · exact hl b h
  · exact h ▸ hc

/-- The 1s fold step preserves the OHLCV invariant everywhere. -/
theorem process_second_bar_good (st : EngineState) (t : Tick) (sym : String)
    (hv : ValidTick t) (h : GoodOHLC st) : GoodOHLC (process_second_bar st t sym) := by
  rcases process_second_bar_cases st t sym with
    ⟨hc, heq⟩ | ⟨cur, hc, hne, heq⟩ | ⟨cur, hc, hts, heq⟩ <;> rw [heq] <;> intro sym' <;>
    obtain ⟨h1, h2, h3, h4⟩ := h sym'
  · refine ⟨h1, h2, ?_, h4⟩
    intro b hb
    simp only [updFn] at hb
    split at hb
    · exact Option.some.inj hb ▸ goodBar_newBar t _ sym "1s" hv
    · exact h3 b hb
  · refine ⟨?_, h2, ?_, h4⟩
    · intro b hb
      simp only [updFn] at hb
      split at hb
      · next hs =>
        subst hs
        exact goodBar_store_bar h1 (h3 cur hc) hb
      · exact h1 b hb
    · intro b hb
      simp only [updFn] at hb
      split at hb
      · exact Option.some.inj hb ▸ goodBar_newBar t _ sym "1s" hv
      · exact h3 b hb
  · refine ⟨h1, h2, ?_, h4⟩
    intro b hb
    simp only [updFn] at hb
    split at hb
    · next hs =>
      subst hs
      exact Option.some.inj hb ▸ goodBar_updateBar cur t (h3 cur hc) hv
    · exact h3 b hb

/-- The 1m fold step preserves the OHLCV invariant everywhere. -/
theorem process_minute_bar_good (st : EngineState) (t : Tick) (sym : String)
    (hv : ValidTick t) (h : GoodOHLC st) : GoodOHLC (process_minute_bar st t sym) := by
  rcases process_minute_bar_cases st t sym with
    ⟨hc, heq⟩ | ⟨cur, hc, hlt, heq⟩ | ⟨cur, hc, hlt, heq⟩ <;> rw [heq] <;> intro sym' <;>
    obtain ⟨h1, h2, h3, h4⟩ := h sym'
  · refine ⟨h1, h2, h3, ?_⟩
    intro b hb
    simp only [updFn] at hb
    split at hb
    · exact Option.some.inj hb ▸ goodBar_newBar t _ sym "1m" hv
    · exact h4 b hb
  · refine ⟨h1, ?_, h3, ?_⟩
    · intro b hb
      simp only [updFn] at hb
      split at hb
      · next hs =>
        subst hs
        exact goodBar_store_bar h2 (h4 cur hc) hb
      · exact h2 b hb
    · intro b hb
      simp only [updFn] at hb
      split at hb
      · exact Option.some.inj hb ▸ goodBar_newBar t _ sym "1m" hv
      · exact h4 b hb
  · refine ⟨h1, h2, h3, ?_⟩
    intro b hb
    simp only [updFn] at hb
    split at hb
    · next hs =>
      subst hs
      exact Option.some.inj hb ▸ goodBar_updateBar cur t (h4 cur hc) hv
    · exact h4 b hb

theorem contribOK_newBar (f : ℕ → ℕ) (t : Tick) (sym iv : String) :
    contribOK f (newBar t (f t.time) sym iv) := by
  intro τ hτ
  simp only [newBar, List.mem_singleton] at hτ
  exact hτ ▸ rfl

theorem contribOK_updateBar {f : ℕ → ℕ} {b : Bar} {t : Tick}
    (hb : contribOK f b) (ht : f t.time = b.timestamp) :
    contribOK f (updateBar b t) := by
  intro τ hτ
  simp only [updateBar, List.mem_append, List.mem_singleton] at hτ
  rcases hτ with h | h
  · exact hb τ h
  · exact h ▸ ht

theorem contribOK_store_bar {f : ℕ → ℕ} {cap : ℕ} {l : List Bar} {c b : Bar}
    (hl : ∀ x ∈ l, contribOK f x) (hc : contribOK f c) (hb : b ∈ store_bar cap l c) :
    contribOK f b := by
  rcases mem_store_bar hb with h | h
  · exact hl b h
  · exact h ▸ hc

/-- The 1s fold step preserves the 1s bucket property. -/
theorem process_second_bar_sec (st : EngineState) (t : Tick) (sym : String)
    (h : SecContrib st) : SecContrib (process_second_bar st t sym) := by
  rcases process_second_bar_cases st t sym with
    ⟨hc, heq⟩ | ⟨cur, hc, hne, heq⟩ | ⟨cur, hc, hts, heq⟩ <;> rw [heq] <;> intro sym' <;>
    obtain ⟨h1, h2⟩ := h sym'
  · refine ⟨h1, ?_⟩
    intro b hb
    simp only [updFn] at hb
    split at hb
    · exact Option.some.inj hb ▸ contribOK_newBar floorSec t sym "1s"
    · exact h2 b hb
  · constructor
    · intro b hb
      simp only [updFn] at hb
      split at hb
      · next hs =>
        subst hs
        exact contribOK_store_bar h1 (h2 cur hc) hb
      · exact h1 b hb
    · intro b hb
      simp only [updFn] at hb
      split at hb
      · exact Option.some.inj hb ▸ contribOK_newBar floorSec t sym "1s"
      · exact h2 b hb
  · refine ⟨h1, ?_⟩
    intro b hb
    simp only [updFn] at hb
    split at hb
    · next hs =>
      subst hs
      exact Option.some.inj hb ▸ contribOK_updateBar (h2 cur hc) hts.symm
    · exact h2 b hb

/-- The 1m fold step leaves the 1s bucket property untouched. -/
theorem process_minute_bar_sec (st : EngineState) (t : Tick) (sym : String)
    (h : SecContrib st) : SecContrib (process_minute_bar st t sym) := by
  intro sym'
  rw [(process_minute_bar_seconds st t sym).1, (process_minute_bar_seconds st t sym).2.1]
  exact h sym'

/-- The 1s fold step leaves the 1m bucket property and sync untouched. -/
theorem process_second_bar_min (st : EngineState) (t : Tick) (sym : String) (lo : ℕ)
    (hmc : MinContrib st) (hms : MinSync st lo) :
    MinContrib (process_second_bar st t sym) ∧ MinSync (process_second_bar st t sym) lo := by
  constructor
  · intro sym'
    rw [(process_second_bar_minutes st t sym).1, (process_second_bar_minutes st t sym).2.1]
    exact hmc sym'
  · intro sym' b hb
    rw [(process_second_bar_minutes st t sym).2.1] at hb
    exact hms sym' b hb

/-- The 1m fold step preserves the 1m bucket property and re-syncs the
current bar's bucket to the new trade-time, provided trade-times do not
decrease. -/
theorem process_minute_bar_min (st : EngineState) (t : Tick) (sym : String) (lo : ℕ)
    (hmc : MinContrib st) (hms : MinSync st lo) (hlo : lo ≤ t.time) :
    MinContrib (process_minute_bar st t sym) ∧ MinSync (process_minute_bar st t sym) t.time := by
  have hmono : floorMin lo ≤ floorMin t.time := floorMin_mono hlo
  rcases process_minute_bar_cases st t sym with
    ⟨hc, heq⟩ | ⟨cur, hc, hlt, heq⟩ | ⟨cur, hc, hlt, heq⟩ <;> rw [heq] <;> constructor
  · intro sym'
    obtain ⟨h1, h2⟩ := hmc sym'
    refine ⟨h1, ?_⟩
    intro b hb
    simp only [updFn] at hb
    split at hb
    · exact Option.some.inj hb ▸ contribOK_newBar floorMin t sym "1m"
    · exact h2 b hb
  · intro sym' b hb
    simp only [updFn] at hb
    split at hb
    · exact Option.some.inj hb ▸ le_refl _
    · exact le_trans (hms sym' b hb) hmono
  · intro sym'
    obtain ⟨h1, h2⟩ := hmc sym'
    constructor
    · intro b hb
      simp only [updFn] at hb
      split at hb
      · next hs =>
        subst hs
        exact contribOK_store_bar h1 (h2 cur hc) hb
      · exact h1 b hb
    · intro b hb
      simp only [updFn] at hb
      split at hb
      · exact Option.some.inj hb ▸ contribOK_newBar floorMin t sym "1m"
      · exact h2 b hb
  · intro sym' b hb
    simp only [updFn] at hb
    split at hb
    · exact Option.some.inj hb ▸ le_refl _
    · exact le_trans (hms sym' b hb) hmono
  · intro sym'
    obtain ⟨h1, h2⟩ := hmc sym'
    refine ⟨h1, ?_⟩
    intro b hb
    simp only [updFn] at hb
    split at hb
    · next hs =>
      subst hs
      have hseed : cur.timestamp ≤ floorMin lo := hms _ cur hc
      have hts : cur.timestamp = floorMin t.time := by omega
      exact Option.some.inj hb ▸ contribOK_updateBar (h2 cur hc) hts.symm
    · exact h2 b hb
  · intro sym' b hb
    simp only [updFn] at hb
    split at hb
    · next hs =>
      subst hs
      have hle : cur.timestamp ≤ floorMin t.time := le_trans (hms _ cur hc) hmono
      exact Option.some.inj hb ▸ hle
    · exact le_trans (hms sym' b hb) hmono

theorem process_tick_good (st : EngineState) (t : Tick) (sym : String)
    (hv : ValidTick t) (h : GoodOHLC st) : GoodOHLC (process_tick st t sym) :=
  process_minute_bar_good _ t sym hv (process_second_bar_good st t sym hv h)

theorem process_tick_sec (st : EngineState) (t : Tick) (sym : String)
    (h : SecContrib st) : SecContrib (process_tick st t sym) :=
  process_minute_bar_sec _ t sym (process_second_bar_sec st t sym h)

theorem process_tick_min (st : EngineState) (t : Tick) (sym : String) (lo : ℕ)
    (hmc : MinContrib st) (hms : MinSync st lo) (hlo : lo ≤ t.time) :
    MinContrib (process_tick st t sym) ∧ MinSync (process_tick st t sym) t.time := by
  have h2 := process_second_bar_min st t sym lo hmc hms
  exact process_minute_bar_min _ t sym lo h2.1 h2.2 hlo

theorem process_all_good :
    ∀ (l : List (Tick × String)) (st : EngineState),
      (∀ p ∈ l, ValidTick p.1) → GoodOHLC st → GoodOHLC (process_all st l) := by
  intro l
  induction l with
  | nil => intro st _ h; exact h
  | cons p rest ih =>
    intro st hv h
    obtain ⟨t, sym⟩ := p
    exact ih _ (fun q hq => hv q (List.mem_cons_of_mem _ hq))
      (process_tick_good st t sym (hv (t, sym) (List.mem_cons_self _ _)) h)

theorem process_all_sec :
    ∀ (l : List (Tick × String)) (st : EngineState),
      SecContrib st → SecContrib (process_all st l) := by
  intro l
  induction l with
  | nil => intro st h; exact h
  | cons p rest ih =>
    intro st h
    obtain ⟨t, sym⟩ := p
    exact ih _ (process_tick_sec st t sym h)

theorem process_all_min :
    ∀ (l : List (Tick × String)) (st : EngineState) (lo : ℕ),
      MinContrib st → MinSync st lo →
      List.Chain' (fun a b => a ≤ b) (lo :: l.map (fun p => p.1.time)) →
      MinContrib (process_all st l) := by
  intro l
  induction l with
  | nil => intro st lo hmc _ _; exact hmc
  | cons p rest ih =>
    intro st lo hmc hms hch
    obtain ⟨t, sym⟩ := p
    simp only [List.map_cons] at hch
    rw [List.chain'_cons] at hch
    obtain ⟨hlo, hch'⟩ := hch
    obtain ⟨hmc', hms'⟩ := process_tick_min st t sym lo hmc hms hlo
    exact ih _ t.time hmc' hms' hch'

theorem initEngine_good : GoodOHLC initEngine := by
  intro sym
  refine ⟨?_, ?_, ?_, ?_⟩ <;> intro b hb <;> simp [initEngine] at hb

theorem initEngine_sec : SecContrib initEngine := by
  intro sym
  refine ⟨?_, ?_⟩ <;> intro b hb <;> simp [initEngine] at hb

theorem initEngine_min : MinContrib initEngine := by
  intro sym
  refine ⟨?_, ?_⟩ <;> intro b hb <;> simp [initEngine] at hb

theorem initEngine_sync (lo : ℕ) : MinSync initEngine lo := by
  intro sym b hb
  simp [initEngine] at hb

/-- C7 counterexample: the bucket-floor conjunct of the claim fails for
1-minute bars when a late tick arrives.  Folding the valid ticks
(price 100, qty 1, time 60000 ms) and (price 50, qty 1, time 30000 ms)
leaves a current 1m bar with bucket-start 60000 to which the tick at
30000 ms contributed, yet floor(30000, 1m) = 0 ≠ 60000. -/
theorem claim_C7_counterexample :
    ValidTick ⟨100, 1, 60000⟩ ∧ ValidTick ⟨50, 1, 30000⟩ ∧
    ((process_all initEngine [(⟨100, 1, 60000⟩, "BTCUSDT"), (⟨50, 1, 30000⟩, "BTCUSDT")]
        ).current_minute_bar "BTCUSDT").map Bar.contribs = some [60000, 30000] ∧
    ((process_all initEngine [(⟨100, 1, 60000⟩, "BTCUSDT"), (⟨50, 1, 30000⟩, "BTCUSDT")]
        ).current_minute_bar "BTCUSDT").map Bar.timestamp = some 60000 ∧
    floorMin 30000 ≠ 60000 := by
  refine ⟨⟨by norm_num, by norm_num⟩, ⟨by norm_num, by norm_num⟩, rfl, rfl, by norm_num [floorMin]⟩

/-- C7 amended: folding ticks with positive prices and non-negative
quantities, the OHLCV invariant (low ≤ open ≤ high, low ≤ close ≤ high,
volume ≥ 0) holds for every bar after every fold step, and bucket-start
equals the floor of every contributing tick's trade-time for all 1s bars
unconditionally and for all 1m bars provided the stream's trade-times
are non-decreasing (a late tick is folded into the newer current 1m bar,
so without monotonicity its floor may differ from the bar's bucket).
The theorem is stated for an arbitrary stream `l`, so it applies to
every prefix of a stream, i.e. after every fold step. -/
theorem claim_C7_amended (l : List (Tick × String)) (hv : ∀ p ∈ l, ValidTick p.1) :
    GoodOHLC (process_all initEngine l) ∧
    SecContrib (process_all initEngine l) ∧
    (List.Chain' (fun a b => a ≤ b) (l.map (fun p => p.1.time)) →
      MinContrib (process_all initEngine l)) := by
  refine ⟨process_all_good l initEngine hv initEngine_good,
          process_all_sec l initEngine initEngine_sec, ?_⟩
  intro hch
  refine process_all_min l initEngine 0 initEngine_min (initEngine_sync 0) ?_
  exact List.chain'_cons'.mpr ⟨fun y _ => Nat.zero_le y, hch⟩

/-- C7 amended, witness: two valid, time-ordered ticks. -/
theorem claim_C7_amended_witness :
    (∀ p ∈ ([(⟨100, 1, 0⟩, "BTCUSDT"), (⟨50, 2, 60000⟩, "ETHUSDT")] :
        List (Tick × String)), ValidTick p.1) ∧
    List.Chain' (fun a b => a ≤ b)
      (([(⟨100, 1, 0⟩, "BTCUSDT"), (⟨50, 2, 60000⟩, "ETHUSDT")] :
        List (Tick × String)).map (fun p => p.1.time)) ∧
    MinContrib (process_all initEngine
      [(⟨100, 1, 0⟩, "BTCUSDT"), (⟨50, 2, 60000⟩, "ETHUSDT")]) := by
  have hv : ∀ p ∈ ([(⟨100, 1, 0⟩, "BTCUSDT"), (⟨50, 2, 60000⟩, "ETHUSDT")] :
      List (Tick × String)), ValidTick p.1 := by
    intro p hp
    fin_cases hp <;> exact ⟨by norm_num, by norm_num⟩
  have hch : List.Chain' (fun a b => a ≤ b)
      (([(⟨100, 1, 0⟩, "BTCUSDT"), (⟨50, 2, 60000⟩, "ETHUSDT")] :
        List (Tick × String)).map (fun p => p.1.time)) := by
    simp only [List.map_cons, List.map_nil]
    exact List.chain'_cons'.mpr ⟨fun y hy => by simp at hy; omega, List.chain'_singleton _⟩
  exact ⟨hv, hch, (claim_C7_amended _ hv).2.2 hch⟩

/-! ### C6: bar listing and aligned price history

`get_bars` returns bar dictionaries; `BarDict` models one.  Python's
stable in-place `result.sort(key=timestamp)` is modelled by a stable
insertion sort: any stable ascending sort computes the same function. -/

structure BarDict where
  timestamp : ℕ
  «open» : ℚ
  high : ℚ
  low : ℚ
  close : ℚ
  volume : ℚ
  symbol : String
deriving DecidableEq, Repr, Inhabited

/-- The dictionary view of a bar built inside `get_bars`. -/
def bar_to_dict (b : Bar) : BarDict :=
  { timestamp := b.timestamp, «open» := b.«open», high := b.high, low := b.low
    close := b.close, volume := b.volume, symbol := b.symbol }

/-- Stable insertion into a timestamp-ascending list. -/
def insertByTs (b : BarDict) : List BarDict → List BarDict
  | [] => [b]
  | c :: cs => if c.timestamp < b.timestamp then c :: insertByTs b cs else b :: c :: cs

/-- Stable ascending sort by timestamp (`result.sort(key=...)`). -/
def sortByTs : List BarDict → List BarDict
  | [] => []
  | b :: bs => insertByTs b (sortByTs bs)

/-- `ResamplingEngine.get_bars`: archived bars plus the current
incomplete bar (if any), sorted by bucket-start ascending, truncated to
the last `n` (Python slice: `result[-n:]` only when `len(result) > n`). -/
def get_bars (st : EngineState) (symbol : String) (interval : String) (n : ℕ) : List BarDict :=
  if interval = "1m" then
    let stored := (st.minute_bars symbol).map bar_to_dict
    let current :=
      match st.current_minute_bar symbol with
      | some b => [bar_to_dict b]
      | none => []
    let result := sortByTs (stored ++ current)
    if n < result.length then pySliceLast result n else result
  else if interval = "1s" then
    let stored := (st.second_bars symbol).map bar_to_dict
    let current :=
      match st.current_second_bar symbol with
      | some b => [bar_to_dict b]
      | none => []
    let result := sortByTs (stored ++ current)
    if n < result.length then pySliceLast result n else result
  else []

/-- One combined price-history row: the `timestamp` key (set by the
first qualifying symbol) and one close-price entry per symbol. -/
structure PHRow where
  timestamp : Option ℕ
  closes : List (String × ℚ)
deriving DecidableEq, Repr

/-- The bar at (one-based) tail offset `k`: Python `bars[-k]`, i.e.
`bars[len(bars) - k]`. -/
def tailBar (l : List BarDict) (k : ℕ) : BarDict :=
  l.getD (l.length - k) default

/-- The body of the `for symbol in symbols` loop of `get_price_history`
at row offset `k = |i|`: skip a symbol with fewer than `k` bars, set the
row timestamp if still unset, and record the symbol's close. -/
def combined_row_step (all_bars : String → List BarDict) (k : ℕ)
    (row : PHRow) (sym : String) : PHRow :=
  if k ≤ (all_bars sym).length then
    { timestamp :=
        match row.timestamp with
        | none => some (tailBar (all_bars sym) k).timestamp
        | some ts => some ts
      closes := row.closes ++ [(sym, (tailBar (all_bars sym) k).close)] }
  else row

/-- The combined row at tail offset `k`. -/
def combined_row (all_bars : String → List BarDict) (symbols : List String) (k : ℕ) : PHRow :=
  symbols.foldl (combined_row_step all_bars k) { timestamp := none, closes := [] }

/-- Python `min` over a non-empty list (0 for the impossible empty case). -/
def min_list : List ℕ → ℕ
  | [] => 0
  | x :: xs => xs.foldl min x

/-- `ResamplingEngine.get_price_history`: per-symbol bars, positional
alignment by tail index over the last `min_length` bars, rows with a
set timestamp kept. -/
def get_price_history (st : EngineState) (symbols : List String)
    (interval : String) (n : ℕ) : List PHRow :=
  if symbols = [] then []
  else
    let min_length := min_list (symbols.map (fun s => (get_bars st s interval n).length))
    if min_length = 0 then []
    else
      ((List.range min_length).map
          (fun j => combined_row (fun s => get_bars st s interval n) symbols (min_length - j))
        ).filter (fun row => row.timestamp ≠ none)

theorem foldl_min_le_init : ∀ (ys : List ℕ) (a : ℕ), ys.foldl min a ≤ a := by
  intro ys
  induction ys with
  | nil => intro a; exact le_refl a
  | cons y ys ih =>
    intro a
    exact le_trans (ih (min a y)) (min_le_left a y)

theorem min_list_le (l : List ℕ) (x : ℕ) (hx : x ∈ l) : min_list l ≤ x := by
  cases l with
  | nil => cases hx
  | cons y ys =>
    rcases List.mem_cons.mp hx with rfl | hx'
    · exact foldl_min_le_init ys x
    · clear hx
      induction ys generalizing y with
      | nil => cases hx'
      | cons z zs ih =>
        rcases List.mem_cons.mp hx' with rfl | hz
        · exact le_trans (foldl_min_le_init zs (min y x)) (min_le_right y x)
        · exact ih (min y z) hz

theorem combined_row_foldl (all_bars : String → List BarDict) (k : ℕ) :
    ∀ (syms : List String) (ts : ℕ) (cl : List (String × ℚ)),
      (∀ s ∈ syms, k ≤ (all_bars s).length) →
      syms.foldl (combined_row_step all_bars k) { timestamp := some ts, closes := cl } =
        { timestamp := some ts
          closes := cl ++ syms.map (fun s => (s, (tailBar (all_bars s) k).close)) } := by
  intro syms
  induction syms with
  | nil => intro ts cl _; simp
  | cons s ss ih =>
    intro ts cl hall
    rw [List.foldl_cons]
    have hs : k ≤ (all_bars s).length := hall s (List.mem_cons_self _ _)
    show List.foldl (combined_row_step all_bars k)
        (combined_row_step all_bars k { timestamp := some ts, closes := cl } s) ss = _
    rw [combined_row_step, if_pos hs]
    rw [ih ts (cl ++ [(s, (tailBar (all_bars s) k).close)])
      (fun q hq => hall q (List.mem_cons_of_mem _ hq))]
    simp

theorem combined_row_eq (all_bars : String → List BarDict) (s0 : String)
    (rest : List String) (k : ℕ)
    (hall : ∀ s ∈ s0 :: rest, k ≤ (all_bars s).length) :
    combined_row all_bars (s0 :: rest) k =
      { timestamp := some (tailBar (all_bars s0) k).timestamp
        closes := (s0 :: rest).map (fun s => (s, (tailBar (all_bars s) k).close)) } := by
  unfold combined_row
  rw [List.foldl_cons]
  have hs : k ≤ (all_bars s0).length := hall s0 (List.mem_cons_self _ _)
  show List.foldl (combined_row_step all_bars k)
      (combined_row_step all_bars k { timestamp := none, closes := [] } s0) rest = _
  rw [combined_row_step, if_pos hs]
  rw [combined_row_foldl all_bars k rest _ _
    (fun q hq => hall q (List.mem_cons_of_mem _ hq))]
  simp

/-- C6: for a non-empty (duplicate-free) symbol list, `get_price_history`
returns exactly `min_i |get_bars(sym_i, I, N)|` rows (empty when that
minimum is zero); row `j` carries the timestamp of the first symbol's
bar at tail offset `m − j` and one close-price entry per requested
symbol, aligned positionally by tail index.  (The duplicate-free
hypothesis matches Python's dict semantics, under which duplicate
symbols collapse to one key.) -/
theorem claim_C6 (st : EngineState) (symbols : List String) (interval : String)
    (n : ℕ) (m : ℕ)
    (hm : m = min_list (symbols.map (fun s => (get_bars st s interval n).length)))
    (hne : symbols ≠ []) (hnd : symbols.Nodup) :
    (get_price_history st symbols interval n).length = m ∧
    get_price_history st symbols interval n =
      (List.range m).map (fun j =>
        { timestamp :=
            some (tailBar (get_bars st (symbols.headD "") interval n) (m - j)).timestamp
          closes := symbols.map (fun s =>
            (s, (tailBar (get_bars st s interval n) (m - j)).close)) }) := by
  subst hm
  cases symbols with
  | nil => exact absurd rfl hne
  | cons s0 rest =>
    have hEq : get_price_history st (s0 :: rest) interval n =
        (List.range (min_list ((s0 :: rest).map
            (fun s => (get_bars st s interval n).length)))).map (fun j =>
          { timestamp := some (tailBar (get_bars st ((s0 :: rest).headD "") interval n)
              (min_list ((s0 :: rest).map (fun s => (get_bars st s interval n).length)) - j)).timestamp
            closes := (s0 :: rest).map (fun s =>
              (s, (tailBar (get_bars st s interval n)
                (min_list ((s0 :: rest).map (fun s => (get_bars st s interval n).length)) - j)).close)) }) := by
      unfold get_price_history
      rw [if_neg hne]
      dsimp only
      by_cases hm0 :
          min_list ((s0 :: rest).map (fun s => (get_bars st s interval n).length)) = 0
      · rw [if_pos hm0, hm0]
        simp
      · rw [if_neg hm0]
        have hrows : ∀ j,
            combined_row (fun s => get_bars st s interval n) (s0 :: rest)
                (min_list ((s0 :: rest).map (fun s => (get_bars st s interval n).length)) - j) =
              { timestamp := some (tailBar (get_bars st s0 interval n)
                  (min_list ((s0 :: rest).map (fun s => (get_bars st s interval n).length)) - j)).timestamp
                closes := (s0 :: rest).map (fun s =>
                  (s, (tailBar (get_bars st s interval n)
                    (min_list ((s0 :: rest).map (fun s => (get_bars st s interval n).length)) - j)).close)) } := by
          intro j
          apply combined_row_eq
          intro s hs
          have hle : min_list ((s0 :: rest).map (fun s => (get_bars st s interval n).length)) ≤
              (get_bars st s interval n).length :=
            min_list_le _ _ (List.mem_map_of_mem _ hs)
          omega
        rw [List.filter_eq_self.mpr ?_]
        · refine List.map_congr_left ?_
          intro j _
          rw [hrows j]
          simp
        · intro row hrow
          rcases List.mem_map.mp hrow with ⟨j, _, hj⟩
          rw [← hj, hrows j]
          simp
    refine ⟨?_, hEq⟩
    rw [hEq]
    simp

/-- A sample engine state for the C6 witness: two archived minute bars
for one symbol and one for the other. -/
def sample_engine : EngineState :=
  { second_bars := fun _ => []
    minute_bars := fun s =>
      if s = "BTCUSDT" then
        [{ timestamp := 0, «open» := 10, high := 12, low := 9, close := 11,
           volume := 3, symbol := "BTCUSDT", interval := "1m", contribs := [] },
         { timestamp := 60000, «open» := 11, high := 13, low := 10, close := 12,
           volume := 2, symbol := "BTCUSDT", interval := "1m", contribs := [] }]
      else if s = "ETHUSDT" then
        [{ timestamp := 60000, «open» := 5, high := 6, low := 4, close := 5,
           volume := 1, symbol := "ETHUSDT", interval := "1m", contribs := [] }]
      else []
    current_second_bar := fun _ => none
    current_minute_bar := fun _ => none
    max_bars_per_symbol := 1000 }

/-- C6 witness: two symbols with 2 and 1 minute bars give exactly one
aligned row. -/
theorem claim_C6_witness :
    (1 : ℕ) = min_list ((["BTCUSDT", "ETHUSDT"] : List String).map
      (fun s => (get_bars sample_engine s "1m" 60).length)) ∧
    (["BTCUSDT", "ETHUSDT"] : List String) ≠ [] ∧
    (["BTCUSDT", "ETHUSDT"] : List String).Nodup ∧
    (get_price_history sample_engine ["BTCUSDT", "ETHUSDT"] "1m" 60).length = 1 := by
  have hm : (1 : ℕ) = min_list ((["BTCUSDT", "ETHUSDT"] : List String).map
      (fun s => (get_bars sample_engine s "1m" 60).length)) := by decide
  have hne : (["BTCUSDT", "ETHUSDT"] : List String) ≠ [] := by decide
  have hnd : (["BTCUSDT", "ETHUSDT"] : List String).Nodup := by decide
  exact ⟨hm, hne, hnd,
    (claim_C6 sample_engine ["BTCUSDT", "ETHUSDT"] "1m" 60 1 hm hne hnd).1⟩

/-! ## Minute-bar finalizer (src/BackEnd/app/minute_bar_finalizer.py)

The wall clock `W` is in milliseconds; `datetime.second` is
`W / 1000 % 60` and the previous-minute boundary is
`floorMin W - 60000`. -/

/-- The finalization condition `_check_and_finalize` applies to a
current minute bar `b` at wall clock `W`. -/
def should_finalize (W : ℕ) (b : Bar) : Bool :=
  if b.timestamp < floorMin W - 60000 then true
  else if b.timestamp = floorMin W - 60000 then decide (5 < W / 1000 % 60)
  else false

/-- `MinuteBarFinalizer._check_and_finalize` followed by
`_finalize_bar` on every collected symbol.  The source first collects
the symbols whose bar satisfies the condition and then finalizes them
one by one; each finalization touches only that symbol's two entries,
so the sweep is the pointwise map below. -/
def check_and_finalize (st : EngineState) (W : ℕ) : EngineState :=
  { st with
      minute_bars := fun sym =>
        match st.current_minute_bar sym with
        | some b =>
          if should_finalize W b then
            store_bar st.max_bars_per_symbol (st.minute_bars sym) b
          else st.minute_bars sym
        | none => st.minute_bars sym
      current_minute_bar := fun sym =>
        match st.current_minute_bar sym with
        | some b => if should_finalize W b then none else some b
        | none => none }

/-- The claim's finalization condition, over integers (no truncation):
`B.bucket-start < floor(W,1m) − 1m`, or equality and the seconds part
of `W` exceeds 5. -/
def FinCond (W : ℕ) (B : Bar) : Prop :=
  (B.timestamp : ℤ) < (floorMin W : ℤ) - 60000 ∨
  ((B.timestamp : ℤ) = (floorMin W : ℤ) - 60000 ∧ 5 < W / 1000 % 60)

theorem mem_trimBars_self (cap : ℕ) (l : List Bar) (b : Bar) (hcap : 0 < cap) :
    b ∈ trimBars cap (l ++ [b]) := by
  unfold trimBars pySliceLast
  split
  · rw [if_neg (by omega : ¬ cap = 0)]
    have hle : (l ++ [b]).length - cap ≤ l.length := by
      simp only [List.length_append, List.length_cons, List.length_nil]
      omega
    rw [List.drop_append_of_le_length hle]
    exact List.mem_append_right _ (List.mem_singleton_self b)
  · exact List.mem_append_right _ (List.mem_singleton_self b)

/-- C3: at wall-clock check `W` (past the first minute of the epoch), a
symbol's current 1-minute bar `B` is finalized exactly when
`B.bucket-start < floor(W,1m) − 1m`, or `B.bucket-start =
floor(W,1m) − 1m` and the seconds part of `W` exceeds 5.  Finalizing
appends `B` to the finalized minute history iff no bar with that
bucket-start is already present (the bounded history is then trimmed to
its cap) and removes the current bar; a bar not meeting the condition
is left in place with the history unchanged. -/
theorem claim_C3 (st : EngineState) (W : ℕ) (sym : String) (B : Bar)
    (hW : 60000 ≤ W) (hc : st.current_minute_bar sym = some B) :
    (FinCond W B ↔ should_finalize W B = true) ∧
    (should_finalize W B = true →
      (check_and_finalize st W).current_minute_bar sym = none ∧
      (bar_exists (st.minute_bars sym) B.timestamp = false →
        (check_and_finalize st W).minute_bars sym =
          trimBars st.max_bars_per_symbol (st.minute_bars sym ++ [B]) ∧
        (0 < st.max_bars_per_symbol → B ∈ (check_and_finalize st W).minute_bars sym)) ∧
      (bar_exists (st.minute_bars sym) B.timestamp = true →
        (check_and_finalize st W).minute_bars sym = st.minute_bars sym)) ∧
    (should_finalize W B = false →
      (check_and_finalize st W).current_minute_bar sym = some B ∧
      (check_and_finalize st W).minute_bars sym = st.minute_bars sym) := by
  have hfm : 60000 ≤ floorMin W := by
    have h1 : floorMin 60000 ≤ floorMin W := floorMin_mono hW
    have h2 : floorMin 60000 = 60000 := by norm_num [floorMin]
    omega
  refine ⟨?_, ?_, ?_⟩
  · constructor
    · intro h
      unfold should_finalize
      rcases h with h | ⟨heq, h5⟩
      · rw [if_pos (by omega : B.timestamp < floorMin W - 60000)]
      · have hn1 : ¬ B.timestamp < floorMin W - 60000 := by omega
        rw [if_neg hn1, if_pos (by omega : B.timestamp = floorMin W - 60000)]
        simpa using h5
    · intro h
      unfold should_finalize at h
      by_cases h1 : B.timestamp < floorMin W - 60000
      · left
        omega
      · rw [if_neg h1] at h
        by_cases h2 : B.timestamp = floorMin W - 60000
        · rw [if_pos h2] at h
          right
          exact ⟨by omega, by simpa using h⟩
        · rw [if_neg h2] at h
          cases h
  · intro hf
    have hcur : (check_and_finalize st W).current_minute_bar sym = none := by
      show (match st.current_minute_bar sym with
        | some b => if should_finalize W b then none else some b
        | none => none) = none
      rw [hc]
      dsimp only
      rw [if_pos hf]
    refine ⟨hcur, ?_, ?_⟩
    · intro hbe
      have hmb : (check_and_finalize st W).minute_bars sym =
          trimBars st.max_bars_per_symbol (st.minute_bars sym ++ [B]) := by
        show (match st.current_minute_bar sym with
          | some b =>
            if should_finalize W b then
              store_bar st.max_bars_per_symbol (st.minute_bars sym) b
            else st.minute_bars sym
          | none => st.minute_bars sym) = _
        rw [hc]
        dsimp only
        rw [if_pos hf]
        unfold store_bar
        rw [if_neg (by rw [hbe]; exact Bool.false_ne_true)]
      refine ⟨hmb, ?_⟩
      intro hcap
      rw [hmb]
      exact mem_trimBars_self _ _ B hcap
    · intro hbe
      show (match st.current_minute_bar sym with
        | some b =>
          if should_finalize W b then
            store_bar st.max_bars_per_symbol (st.minute_bars sym) b
          else st.minute_bars sym
        | none => st.minute_bars sym) = _
      rw [hc]
      dsimp only
      rw [if_pos hf]
      unfold store_bar
      rw [if_pos hbe]
  · intro hf
    have hnf : ¬ should_finalize W B = true := by
      rw [hf]
      exact Bool.false_ne_true
    constructor
    · show (match st.current_minute_bar sym with
        | some b => if should_finalize W b then none else some b
        | none => none) = _
      rw [hc]
      dsimp only
      rw [if_neg hnf]
    · show (match st.current_minute_bar sym with
        | some b =>
          if should_finalize W b then
            store_bar st.max_bars_per_symbol (st.minute_bars sym) b
          else st.minute_bars sym
        | none => st.minute_bars sym) = _
      rw [hc]
      dsimp only
      rw [if_neg hnf]

/-- A current minute bar at bucket 0 for the C3 witness. -/
def fin_bar : Bar :=
  { timestamp := 0, «open» := 10, high := 12, low := 9, close := 11,
    volume := 3, symbol := "BTCUSDT", interval := "1m", contribs := [0] }

/-- An engine holding only that current bar. -/
def fin_engine : EngineState :=
  { initEngine with current_minute_bar := fun s => if s = "BTCUSDT" then some fin_bar else none }

/-- C3 witness: at wall clock 126000 ms (02:06), the bar of minute 0 is
at least two minutes old and gets finalized: appended to the empty
history and removed from the current slot. -/
theorem claim_C3_witness :
    (60000 : ℕ) ≤ 126000 ∧
    fin_engine.current_minute_bar "BTCUSDT" = some fin_bar ∧
    should_finalize 126000 fin_bar = true ∧
    (check_and_finalize fin_engine 126000).current_minute_bar "BTCUSDT" = none ∧
    (check_and_finalize fin_engine 126000).minute_bars "BTCUSDT" =
      trimBars fin_engine.max_bars_per_symbol (fin_engine.minute_bars "BTCUSDT" ++ [fin_bar]) := by
  have hW : (60000 : ℕ) ≤ 126000 := by norm_num
  have hc : fin_engine.current_minute_bar "BTCUSDT" = some fin_bar := rfl
  have hf : should_finalize 126000 fin_bar = true := by decide
  have hbe : bar_exists (fin_engine.minute_bars "BTCUSDT") fin_bar.timestamp = false := rfl
  have h := (claim_C3 fin_engine 126000 "BTCUSDT" fin_bar hW hc).2.1 hf
  exact ⟨hW, hc, hf, h.1, (h.2.1 hbe).1⟩

/-! ## Analytics z-score (src/BackEnd/app/analytics.py)

`compute_zscore` runs on floats; the model is exact real arithmetic (the
claim itself allows a 1e-9 tolerance against the reference formula).
`spread[-self.window:]` is the Python slice (`pySliceLast`), and
`spread[-1]` is the last element (the theorems guard `|S| ≥ W ≥ 1`, so
the list is non-empty wherever it is read). -/

/-- `np.mean`. -/
noncomputable def npMean (xs : List ℝ) : ℝ := xs.sum / (xs.length : ℝ)

/-- `np.std(xs, ddof=1)`: square root of the Bessel-corrected sample
variance (divisor `n − 1`). -/
noncomputable def npStd1 (xs : List ℝ) : ℝ :=
  Real.sqrt ((xs.map (fun x => (x - npMean xs) ^ 2)).sum / ((xs.length : ℝ) - 1))

/-- `SpreadAnalyzer.compute_zscore`: absent below the window, 0 when the
rolling standard deviation vanishes, else the standardized last value. -/
noncomputable def compute_zscore (spread : List ℝ) (window : ℕ) : Option ℝ :=
  if spread.length < window then none
  else
    let recent := pySliceLast spread window
    let mean := npMean recent
    let std := npStd1 recent
    if std = 0 then some 0
    else some ((spread.getLastD 0 - mean) / std)

/-- The spec's μ: mean over the last `W` values of `S`. -/
noncomputable def zscore_mu (S : List ℝ) (W : ℕ) : ℝ :=
  (S.drop (S.length - W)).sum / ((S.drop (S.length - W)).length : ℝ)

/-- The spec's σ: sample standard deviation (Bessel-corrected, divisor
`W − 1`) over the last `W` values of `S`. -/
noncomputable def zscore_sigma (S : List ℝ) (W : ℕ) : ℝ :=
  Real.sqrt (((S.drop (S.length - W)).map (fun x => (x - zscore_mu S W) ^ 2)).sum /
    ((W : ℝ) - 1))

/-- The spec's reference formula `(S[last] − μ) / σ`. -/
noncomputable def zscore_ref (S : List ℝ) (W : ℕ) : ℝ :=
  (S.getLastD 0 - zscore_mu S W) / zscore_sigma S W

theorem pySliceLast_eq_drop {α : Type} (xs : List α) (W : ℕ) (hW : 1 ≤ W) :
    pySliceLast xs W = xs.drop (xs.length - W) := by
  unfold pySliceLast
  rw [if_neg (by omega : ¬ W = 0)]

theorem zscore_mu_eq (S : List ℝ) (W : ℕ) (hW : 1 ≤ W) :
    zscore_mu S W = npMean (pySliceLast S W) := by
  unfold zscore_mu npMean
  rw [pySliceLast_eq_drop S W hW]

theorem zscore_sigma_eq (S : List ℝ) (W : ℕ) (hW : 1 ≤ W) (hle : W ≤ S.length) :
    zscore_sigma S W = npStd1 (pySliceLast S W) := by
  unfold zscore_sigma npStd1
  rw [zscore_mu_eq S W hW, pySliceLast_eq_drop S W hW, List.length_drop]
  have hlen : S.length - (S.length - W) = W := by omega
  rw [hlen]

/-- C4: for every spread series `S` and positive window `W`, the rolling
z-score is absent iff `|S| < W`; it is 0 when the Bessel-corrected
sample standard deviation of the last `W` values is 0; otherwise it is
exactly `(S[last] − μ) / σ`, hence within 1e-9 of the reference
formula. -/
theorem claim_C4 (S : List ℝ) (W : ℕ) (hW : 1 ≤ W) :
    (compute_zscore S W = none ↔ S.length < W) ∧
    (W ≤ S.length → npStd1 (pySliceLast S W) = 0 → compute_zscore S W = some 0) ∧
    (W ≤ S.length → npStd1 (pySliceLast S W) ≠ 0 →
      compute_zscore S W = some (zscore_ref S W) ∧
      ∀ z, compute_zscore S W = some z → |z - zscore_ref S W| ≤ 1 / 1000000000) := by
  refine ⟨?_, ?_, ?_⟩
  · unfold compute_zscore
    by_cases h : S.length < W
    · rw [if_pos h]
      simpa using h
    · rw [if_neg h]
      dsimp only
      constructor
      · intro hc
        split at hc <;> simp at hc
      · intro hlt
        exact absurd hlt h
  · intro hle hstd
    unfold compute_zscore
    rw [if_neg (by omega : ¬ S.length < W)]
    dsimp only
    rw [if_pos hstd]
  · intro hle hstd
    have hz : compute_zscore S W =
        some ((S.getLastD 0 - npMean (pySliceLast S W)) / npStd1 (pySliceLast S W)) := by
      unfold compute_zscore
      rw [if_neg (by omega : ¬ S.length < W)]
      dsimp only
      rw [if_neg hstd]
    have href : zscore_ref S W =
        (S.getLastD 0 - npMean (pySliceLast S W)) / npStd1 (pySliceLast S W) := by
      unfold zscore_ref
      rw [zscore_mu_eq S W hW, zscore_sigma_eq S W hW hle]
    constructor
    · rw [hz, href]
    · intro z hzz
      rw [hz] at hzz
      have : z = (S.getLastD 0 - npMean (pySliceLast S W)) / npStd1 (pySliceLast S W) :=
        Option.some.inj hzz.symm
      rw [this, href, sub_self, abs_zero]
      norm_num

/-- C4 witness: `S = [0, 2]`, `W = 2`, where μ = 1 and σ = √2 ≠ 0. -/
theorem claim_C4_witness :
    (1 : ℕ) ≤ 2 ∧ 2 ≤ ([(0 : ℝ), 2]).length ∧
    npStd1 (pySliceLast [(0 : ℝ), 2] 2) ≠ 0 ∧
    compute_zscore [(0 : ℝ), 2] 2 = some (zscore_ref [(0 : ℝ), 2] 2) := by
  have hW : (1 : ℕ) ≤ 2 := by norm_num
  have hle : 2 ≤ ([(0 : ℝ), 2]).length := by simp
  have hstd : npStd1 (pySliceLast [(0 : ℝ), 2] 2) ≠ 0 := by
    have hval : npStd1 (pySliceLast [(0 : ℝ), 2] 2) = Real.sqrt 2 := by
      unfold npStd1 npMean pySliceLast
      norm_num
    rw [hval]
    rw [Real.sqrt_ne_zero']
    norm_num
  exact ⟨hW, hle, hstd, ((claim_C4 [(0 : ℝ), 2] 2 hW).2.2 hle hstd).1⟩

/-! ## Broadcast fabric (src/BackEnd/app/websocket_manager.py)

Sessions are modelled by numeric ids, Python sets by lists of distinct
ids, and `json.dumps(message)` by the textual frame handed to the
broadcast.  `asyncio.Lock` is not reentrant; a method that awaits the
lock while the same task already holds it never resumes.  The `locked`
flag passed to `disconnect` is the lock state of the calling task, and
a `none` result models a call that never returns. -/

structure ConnectionManager where
  price_connections : List ℕ
  spread_connections : List ℕ
  correlation_connections : List ℕ
  summary_connections : List ℕ
  alert_connections : List ℕ
  analytics_connections : List ℕ
  all_connections : List (ℕ × String)
deriving DecidableEq, Repr

/-- `set.discard`. -/
def removeConn (l : List ℕ) (ws : ℕ) : List ℕ := l.filter (fun c => c ≠ ws)

/-- `ConnectionManager.disconnect`: under `self.lock`, remove the
session from every pool and from `all_connections`.  If the calling
task already holds the lock, the acquisition blocks forever (`none`). -/
def disconnect (locked : Bool) (cm : ConnectionManager) (ws : ℕ) : Option ConnectionManager :=
  if locked then none
  else
    some { price_connections := removeConn cm.price_connections ws
           spread_connections := removeConn cm.spread_connections ws
           correlation_connections := removeConn cm.correlation_connections ws
           summary_connections := removeConn cm.summary_connections ws
           alert_connections := removeConn cm.alert_connections ws
           analytics_connections := removeConn cm.analytics_connections ws
           all_connections := cm.all_connections.filter (fun p => p.1 ≠ ws) }

/-- `ConnectionManager.broadcast_to_pool`: serialize the message once,
send the frame to every subscriber of the pool (collecting the ones
whose send raises), then — holding `self.lock` — disconnect each failed
subscriber.  The fan-out frames actually delivered are returned next to
the final manager state; the cleanup loop calls `disconnect`, which
re-acquires the already-held non-reentrant lock, so when `failed` is
non-empty the call never completes (`none`). -/
def broadcast_to_pool (cm : ConnectionManager) (pool : List ℕ) (message : String)
    (send_ok : ℕ → Bool) : List (ℕ × String) × Option ConnectionManager :=
  if pool = [] then ([], some cm)
  else
    let message_json := message
    let frames := (pool.filter send_ok).map (fun c => (c, message_json))
    let failed := pool.filter (fun c => ! send_ok c)
    if failed = [] then (frames, some cm)
    else (frames, failed.foldlM (fun s c => disconnect true s c) cm)

/-- The two-subscriber scenario of the claim. -/
def cm_two : ConnectionManager :=
  { price_connections := []
    spread_connections := []
    correlation_connections := []
    summary_connections := []
    alert_connections := []
    analytics_connections := [1, 2]
    all_connections := [(1, "analytics"), (2, "analytics")] }

/-- C9, the code at the claim's input: two subscribers on topic
`analytics`, the first send raises.  The second subscriber does receive
the serialized frame (the failure does not block the fan-out), but the
post-fan-out cleanup re-acquires the manager's non-reentrant lock inside
`disconnect` and never completes: no post-state with the first
subscriber removed is ever reached, contradicting the claim's
post-condition.  With no failure, the broadcast completes and leaves the
topic set unchanged. -/
theorem claim_C9_bug :
    (broadcast_to_pool cm_two cm_two.analytics_connections "frame"
        (fun c => decide (c ≠ 1))).1 = [(2, "frame")] ∧
    (broadcast_to_pool cm_two cm_two.analytics_connections "frame"
        (fun c => decide (c ≠ 1))).2 = none ∧
    (broadcast_to_pool cm_two cm_two.analytics_connections "frame"
        (fun _ => true)).1 = [(1, "frame"), (2, "frame")] ∧
    (broadcast_to_pool cm_two cm_two.analytics_connections "frame"
        (fun _ => true)).2 = some cm_two := by
  exact ⟨rfl, rfl, rfl, rfl⟩
